import Mathlib

/-!
Shallow embedding of the DKIM verifier in src/src/dkim.c and proofs about it.

Conventions of the embedding:
  * C strings and byte buffers are `List Char` (one `Char` per byte; decoded
    binary bytes use `Char.ofNat` of the byte value).
  * The arena, logging and OpenSSL calls are irrelevant to the verified
    properties; fallible C functions returning NULL with a GError become
    `Except DkimError`.
  * `g_checksum_update` accumulations are modelled by the list of bytes fed
    into the digest; the digest function itself (SHA-1/SHA-256, an external
    library call) is a parameter `H` of `dkimCheck`.
-/

/-- g_ascii_isspace: space, tab, newline, vertical tab, form feed, carriage return. -/
def isWSP (c : Char) : Bool :=
  c == ' ' || c == '\t' || c == '\n' || c == Char.ofNat 11 || c == Char.ofNat 12 || c == '\r'

/-- g_ascii_tolower. -/
def lowerCh (c : Char) : Char :=
  if 'A' ≤ c ∧ c ≤ 'Z' then Char.ofNat (c.toNat + 32) else c

def lowerStr (l : List Char) : List Char := l.map lowerCh

/-- g_strstrip: remove leading and trailing ASCII whitespace. -/
def stripWS (l : List Char) : List Char :=
  ((l.dropWhile (fun c => isWSP c)).reverse.dropWhile (fun c => isWSP c)).reverse

def CRLF : List Char := ['\r', '\n']

/-- GLib base64 rank table (mime_base64_rank): alphabet chars get their
    6-bit value, the pad char gets rank 0 and is special-cased in the
    decoder, everything else is skipped. -/
def b64rank (c : Char) : Option Nat :=
  if 'A' ≤ c ∧ c ≤ 'Z' then some (c.toNat - 65)
  else if 'a' ≤ c ∧ c ≤ 'z' then some (c.toNat - 71)
  else if '0' ≤ c ∧ c ≤ '9' then some (c.toNat + 4)
  else if c = '+' then some 62
  else if c = '/' then some 63
  else if c = '=' then some 0
  else none

/-- g_base64_decode_step: accumulate 4 ranks into 24 bits, emit up to 3
    bytes, suppressing the low bytes when the matching input chars were
    the pad char; a leftover group of fewer than 4 ranks is dropped. -/
def b64decodeAux : List Char → Nat → Nat → Char → Char → List Char
  | [], _, _, _, _ => []
  | c :: rest, n, v, l0, _ =>
    match b64rank c with
    | none => b64decodeAux rest n v l0 (Char.ofNat 0)
    | some r =>
      let v2 := (v * 64 + r) % 16777216
      if n = 3 then
        (Char.ofNat (v2 / 65536 % 256) ::
          ((if l0 = '=' then [] else [Char.ofNat (v2 / 256 % 256)]) ++
           (if c = '=' then [] else [Char.ofNat (v2 % 256)]))) ++
        b64decodeAux rest 0 v2 c l0
      else
        b64decodeAux rest (n + 1) v2 c l0

/-- g_base64_decode_inplace on a NUL-terminated copy of the value. -/
def b64decode (l : List Char) : List Char :=
  b64decodeAux l 0 0 (Char.ofNat 0) (Char.ofNat 0)

/-- DKIM_SIGERROR_* error kinds of dkim.h, as surfaced through GError codes. -/
inductive DkimError where
  | UNKNOWN
  | INVALID_A
  | INVALID_H
  | INVALID_L
  | VERSION
  | EMPTY_B
  | EMPTY_BH
  | EMPTY_D
  | EMPTY_S
  | EMPTY_V
  | EMPTY_H
  | BADSIG
  | FUTURE
  | EXPIRED
  | NOKEY
  | KEYFAIL
  | KEYREVOKED
deriving DecidableEq, Repr

inductive DkimCanonType where
  | simple
  | relaxed
deriving DecidableEq

inductive DkimSignAlg where
  | unknown
  | rsaSha1
  | rsaSha256
deriving DecidableEq

/-- rspamd_dkim_context_t.  Pointer fields that the completeness check
    compares against NULL are `Option`; `ver`, `len`, `timestamp` and
    `expiration` are zero-initialised integers as in the pool_alloc0 C
    struct. `b` and `bh` hold the base64-decoded bytes. -/
structure DkimContext where
  b : Option (List Char)
  bh : Option (List Char)
  domain : Option (List Char)
  selector : Option (List Char)
  ver : Nat
  hlist : Option (List (List Char))
  sigAlg : DkimSignAlg
  headerCanonType : DkimCanonType
  bodyCanonType : DkimCanonType
  len : Nat
  timestamp : Nat
  expiration : Nat
  dnsKey : List Char

/-- memory_pool_alloc0 context with DKIM_CANON_DEFAULT (= simple) and
    DKIM_SIGN_UNKNOWN. -/
def ctxEmpty : DkimContext :=
  ⟨none, none, none, none, 0, none, .unknown, .simple, .simple, 0, 0, 0, []⟩

/-- rspamd_strtoul, modelled as: a non-empty all-digit string parses as an
    unsigned decimal (the helper itself lives outside this file's source). -/
def strtoulM (l : List Char) : Option Nat :=
  if l ≠ [] ∧ l.all (fun c => c.isDigit) then
    some (l.foldl (fun acc c => acc * 10 + (c.toNat - 48)) 0)
  else none

/-- rspamd_dkim_parse_signature: base64-decode in place, store bytes and length. -/
def parseSignature (ctx : DkimContext) (value : List Char) : Except DkimError DkimContext :=
  .ok { ctx with b := some (b64decode value) }

/-- rspamd_dkim_parse_signalg. -/
def parseSignalg (ctx : DkimContext) (value : List Char) : Except DkimError DkimContext :=
  if value = ("rsa-sha1").data then .ok { ctx with sigAlg := .rsaSha1 }
  else if value = ("rsa-sha256").data then .ok { ctx with sigAlg := .rsaSha256 }
  else .error .INVALID_A

/-- rspamd_dkim_parse_domain. -/
def parseDomain (ctx : DkimContext) (value : List Char) : Except DkimError DkimContext :=
  .ok { ctx with domain := some value }

/-- rspamd_dkim_parse_selector. -/
def parseSelector (ctx : DkimContext) (value : List Char) : Except DkimError DkimContext :=
  .ok { ctx with selector := some value }

/-- rspamd_dkim_parse_canonalg: "X" or "X/Y" with X, Y in simple | relaxed. -/
def parseCanonalg (ctx : DkimContext) (value : List Char) : Except DkimError DkimContext :=
  let hd := value.takeWhile (fun c => c != '/')
  if hd.length = value.length then
    if value = ("simple").data then .ok { ctx with headerCanonType := .simple }
    else if value = ("relaxed").data then .ok { ctx with headerCanonType := .relaxed }
    else .error .INVALID_A
  else
    let bodyPart := value.drop (hd.length + 1)
    if hd = ("simple").data ∨ hd = ("relaxed").data then
      let hc : DkimCanonType := if hd = ("simple").data then .simple else .relaxed
      if bodyPart = ("simple").data then
        .ok { ctx with headerCanonType := hc, bodyCanonType := .simple }
      else if bodyPart = ("relaxed").data then
        .ok { ctx with headerCanonType := hc, bodyCanonType := .relaxed }
      else .error .INVALID_A
    else .error .INVALID_A

/-- The two-pointer segment scan of rspamd_dkim_parse_hdrlist: a segment
    closes at a ':' (or at the end) only when non-empty; a ':' seen while
    the current segment is empty stays part of the segment. -/
def hdrSegsAux : List Char → List Char → List (List Char)
  | [], cur => if cur.isEmpty then [] else [cur]
  | c :: rest, cur =>
    if c = ':' ∧ cur ≠ [] then cur :: hdrSegsAux rest []
    else hdrSegsAux rest (cur ++ [c])

/-- rspamd_dkim_parse_hdrlist: split on ':', strip each name, require a
    case-insensitive "from", keep original order (prepend then reverse). -/
def parseHdrlist (ctx : DkimContext) (value : List Char) : Except DkimError DkimContext :=
  let segs := (hdrSegsAux value []).map stripWS
  if segs = [] then .error .INVALID_H
  else if segs.any (fun h => lowerStr h == ("from").data) then
    .ok { ctx with hlist := some segs }
  else .error .INVALID_H

/-- rspamd_dkim_parse_version: value must be exactly "1". -/
def parseVersion (ctx : DkimContext) (value : List Char) : Except DkimError DkimContext :=
  if value = [ '1' ] then .ok { ctx with ver := 1 } else .error .VERSION

/-- rspamd_dkim_parse_timestamp. -/
def parseTimestamp (ctx : DkimContext) (value : List Char) : Except DkimError DkimContext :=
  match strtoulM value with
  | some v => .ok { ctx with timestamp := v }
  | none => .error .UNKNOWN

/-- rspamd_dkim_parse_expiration. -/
def parseExpiration (ctx : DkimContext) (value : List Char) : Except DkimError DkimContext :=
  match strtoulM value with
  | some v => .ok { ctx with expiration := v }
  | none => .error .UNKNOWN

/-- rspamd_dkim_parse_bodyhash. -/
def parseBodyhash (ctx : DkimContext) (value : List Char) : Except DkimError DkimContext :=
  .ok { ctx with bh := some (b64decode value) }

/-- rspamd_dkim_parse_bodylength. -/
def parseBodylength (ctx : DkimContext) (value : List Char) : Except DkimError DkimContext :=
  match strtoulM value with
  | some v => .ok { ctx with len := v }
  | none => .error .INVALID_L

/-- The DKIM_PARAM_* indices of parser_funcs. -/
inductive DkimParam where
  | signature
  | signalg
  | domain
  | canonalg
  | querymethod
  | selector
  | hdrlist
  | version
  | identity
  | timestamp
  | expiration
  | copiedhdrs
  | bodyhash
  | bodylength
deriving DecidableEq

/-- DKIM_STATE_AFTER_TAG: map a tag name to its param; all failures use
    DKIM_SIGERROR_UNKNOWN (zero length, unknown 1- or 2-letter tag, longer). -/
def resolveTag : List Char → Except DkimError DkimParam
  | [ 'v' ] => .ok .version
  | [ 'a' ] => .ok .signalg
  | [ 'b' ] => .ok .signature
  | [ 'c' ] => .ok .canonalg
  | [ 'd' ] => .ok .domain
  | [ 'h' ] => .ok .hdrlist
  | [ 'i' ] => .ok .identity
  | [ 'l' ] => .ok .bodylength
  | [ 'q' ] => .ok .querymethod
  | [ 's' ] => .ok .selector
  | [ 't' ] => .ok .timestamp
  | [ 'x' ] => .ok .expiration
  | [ 'z' ] => .ok .copiedhdrs
  | [ 'b', 'h' ] => .ok .bodyhash
  | _ => .error .UNKNOWN

/-- parser_funcs dispatch. -/
def applyParam (p : DkimParam) (ctx : DkimContext) (value : List Char) :
    Except DkimError DkimContext :=
  match p with
  | .signature => parseSignature ctx value
  | .signalg => parseSignalg ctx value
  | .domain => parseDomain ctx value
  | .canonalg => parseCanonalg ctx value
  | .querymethod => .ok ctx
  | .selector => parseSelector ctx value
  | .hdrlist => parseHdrlist ctx value
  | .version => parseVersion ctx value
  | .identity => .ok ctx
  | .timestamp => parseTimestamp ctx value
  | .expiration => parseExpiration ctx value
  | .copiedhdrs => .ok ctx
  | .bodyhash => parseBodyhash ctx value
  | .bodylength => parseBodylength ctx value

/-- The tag-stream state machine of rspamd_create_dkim_context
    (SKIP_SPACES / TAG / AFTER_TAG / VALUE).  One recursive step handles one
    `tag = value [;]` item.  End of input inside a tag name silently stops
    (the C loop just runs off the end), whereas whitespace after a tag name
    not followed by '=' is an error.  A value at the end of input is the
    rest of the string (the C code passes p - c + 1 covering the
    terminating NUL, which the string copies drop again).  The fuel is
    bounded by the input length plus one, since every recursion consumes at
    least the ';' separator. -/
def parseTagsAux : Nat → List Char → DkimContext → Except DkimError DkimContext
  | 0, _, _ => .error .UNKNOWN
  | fuel + 1, s, ctx =>
    let s1 := s.dropWhile (fun c => isWSP c)
    let name := s1.takeWhile (fun c => !(isWSP c) && c != '=')
    let rest1 := s1.drop name.length
    match rest1 with
    | [] => .ok ctx
    | c :: rest2 =>
      let rest3 := if isWSP c then rest2.dropWhile (fun c2 => isWSP c2) else c :: rest2
      match rest3 with
      | '=' :: rest4 =>
        match resolveTag name with
        | .error e => .error e
        | .ok param =>
          let rest5 := rest4.dropWhile (fun c2 => isWSP c2)
          let value := rest5.takeWhile (fun c2 => c2 != ';')
          let rest6 := rest5.drop value.length
          match applyParam param ctx value with
          | .error e => .error e
          | .ok ctx2 =>
            match rest6 with
            | [] => .ok ctx2
            | _ :: rest7 => parseTagsAux fuel rest7 ctx2
      | _ => .error .UNKNOWN

/-- The completeness, length and clock checks plus DNS key construction at
    the end of rspamd_create_dkim_context (after the parse loop).  Note
    that a missing a tag (sig_alg still DKIM_SIGN_UNKNOWN) is reported with
    DKIM_SIGERROR_EMPTY_S, exactly as in the source. -/
def dkimCtxComplete (c : DkimContext) (now : Nat) : Except DkimError DkimContext :=
  if c.b = none then .error .EMPTY_B
  else if c.bh = none then .error .EMPTY_BH
  else if c.domain = none then .error .EMPTY_D
  else if c.selector = none then .error .EMPTY_S
  else if c.ver = 0 then .error .EMPTY_V
  else if c.hlist = none then .error .EMPTY_H
  else if c.sigAlg = .unknown then .error .EMPTY_S
  else if c.sigAlg = .rsaSha1 ∧ (c.bh.getD []).length ≠ 20 then .error .BADSIG
  else if c.sigAlg = .rsaSha256 ∧ (c.bh.getD []).length ≠ 32 then .error .BADSIG
  else if c.timestamp ≠ 0 ∧ now < c.timestamp then .error .FUTURE
  else if c.expiration ≠ 0 ∧ c.expiration < now then .error .EXPIRED
  else
    .ok { c with dnsKey :=
      c.selector.getD [] ++ [ '.' ] ++ ("_domainkey").data ++ [ '.' ] ++ c.domain.getD [] }

/-- rspamd_create_dkim_context. -/
def createDkimContext (sig : List Char) (now : Nat) : Except DkimError DkimContext :=
  match parseTagsAux (sig.length + 1) sig ctxEmpty with
  | .error e => .error e
  | .ok c => dkimCtxComplete c now

/-- Projection of the error of a context-creation result. -/
def resErr (r : Except DkimError DkimContext) : Option DkimError :=
  match r with
  | .error e => some e
  | .ok _ => none

/-!
Key record parsing (rspamd_dkim_parse_key) and the DNS callback
(rspamd_dkim_dns_cb).  rspamd_dkim_make_key is modelled for the build
without OpenSSL: it copies and base64-decodes the key material and
succeeds (the DER/RSA extraction is an external library call).
-/

/-- The index-based scan of rspamd_dkim_parse_key.  `n` is the string
    length ("end"); reading the terminating NUL yields `Char.ofNat 0`.
    State 0 looks for "p="; state 1 looks for ';' or the end with a
    non-empty value.  After the loop (p = n + 1) the code distinguishes
    KEYREVOKED (p - c = 0) from KEYFAIL.  The fuel only bounds the loop,
    which advances p by at least one per step. -/
def parseKeyAux (chars : List Char) (n : Nat) :
    Nat → Nat → Nat → Nat → Except DkimError (List Char)
  | 0, _, _, _ => .error .UNKNOWN
  | fuel + 1, p, c, state =>
    if p > n then
      if p - c = 0 then .error .KEYREVOKED else .error .KEYFAIL
    else
      if state = 0 then
        if p ≠ n ∧ chars.getD p (Char.ofNat 0) = 'p' ∧ chars.getD (p + 1) (Char.ofNat 0) = '=' then
          parseKeyAux chars n fuel (p + 2) (p + 2) 1
        else
          parseKeyAux chars n fuel (p + 1) c 0
      else
        if (chars.getD p (Char.ofNat 0) = ';' ∨ p = n) ∧ c < p then
          .ok (b64decode ((chars.drop c).take (p - c)))
        else
          parseKeyAux chars n fuel (p + 1) c state

/-- rspamd_dkim_parse_key on one TXT record body; an .ok result carries the
    decoded key bytes (rspamd_dkim_make_key without OpenSSL). -/
def parseKey (txt : List Char) : Except DkimError (List Char) :=
  parseKeyAux txt txt.length (txt.length + 3) 0 0 0

/-- DNS response codes relevant to the adapter. -/
inductive DnsRc where
  | noError
  | nxDomain
  | servFail
  | timedOut
deriving DecidableEq

structure DnsReply where
  code : DnsRc
  elements : List (List Char)

/-- The record loop of rspamd_dkim_dns_cb: try each TXT record, stop at the
    first success (freeing any earlier error); g_set_error keeps the first
    error set, later calls on a non-NULL GError are ignored. -/
def dnsLoop : List (List Char) → Option DkimError → Option (List Char) × Option DkimError
  | [], e => (none, e)
  | t :: rest, e =>
    match parseKey t with
    | .ok k => (some k, none)
    | .error e2 => dnsLoop rest (if e = none then some e2 else e)

/-- rspamd_dkim_dns_cb: the single callback invocation is modelled by the
    returned pair (key, error).  A non-success DNS code raises
    DKIM_SIGERROR_NOKEY.  (With a success code and an empty element list
    the C code reads an uninitialised `key`; the model returns no key and
    no error there.) -/
def dnsCb (r : DnsReply) : Option (List Char) × Option DkimError :=
  if r.code ≠ .noError then (none, some .NOKEY)
  else dnsLoop r.elements none

/-!
The b= elision scanner of rspamd_dkim_signature_update, as a state machine
over the header bytes.  The C pointers map to the state as follows: the
bytes in [c, p) are `pending`, the bytes already fed to headers_hash are
`outb`; the step at one character sees the lookahead p[1] (`la`) and
whether p = end - 1 (`isLast`).
-/

structure SigSt where
  tag : Bool
  skip : Bool
  pending : List Char
  outb : List Char
deriving DecidableEq

/-- One iteration of the while loop of rspamd_dkim_signature_update, in the
    order of the C conditions: detect "b=" while in a tag (emit through the
    "b=", start skipping), end a skip at ';' or at the last byte (resetting
    c), leave value state at ';', enter value state at '='. -/
def sigStep (st : SigSt) (ch : Char) (la : Option Char) (isLast : Bool) : SigSt :=
  if st.tag && ch == 'b' && la == some '=' then
    ⟨st.tag, true, st.pending ++ [ 'b' ], st.outb ++ st.pending ++ [ 'b', '=' ]⟩
  else if st.skip && (ch == ';' || isLast) then
    ⟨st.tag, false, [ ch ], st.outb⟩
  else if !st.tag && ch == ';' then
    ⟨true, st.skip, st.pending ++ [ ch ], st.outb⟩
  else if st.tag && ch == '=' then
    ⟨false, st.skip, st.pending ++ [ ch ], st.outb⟩
  else
    ⟨st.tag, st.skip, st.pending ++ [ ch ], st.outb⟩

def sigScan (st : SigSt) : List Char → SigSt
  | [] => st
  | ch :: rest => sigScan (sigStep st ch rest.head? rest.isEmpty) rest

/-- Scan a proper prefix of the input: every step has a successor, and the
    lookahead at the last character of the prefix is `nx` (the first
    character of the rest of the input). -/
def sigScanP (st : SigSt) : List Char → Char → SigSt
  | [], _ => st
  | ch :: rest, nx => sigScanP (sigStep st ch (some (rest.headD nx)) false) rest nx

def dropTrailCRLF (l : List Char) : List Char :=
  (l.reverse.dropWhile (fun c => c == '\r' || c == '\n')).reverse

/-- The epilogue of rspamd_dkim_signature_update: back off over trailing CR
    and LF bytes of [c, end) and feed the remainder, if non-empty. -/
def sigFinishOut (st : SigSt) : List Char := st.outb ++ dropTrailCRLF st.pending

def sigInit : SigSt := ⟨true, false, [], []⟩

/-- All bytes rspamd_dkim_signature_update feeds into headers_hash for one
    canonicalized signature header. -/
def sigUpdateOut (l : List Char) : List Char := sigFinishOut (sigScan sigInit l)

/-!
Relaxed header canonicalization (rspamd_dkim_canonize_header_relaxed).
-/

/-- The got_sp loop over the header value: any whitespace run becomes a
    single space, other bytes are copied. -/
def collapseGS : Bool → List Char → List Char
  | _, [] => []
  | gs, c :: cs =>
    if isWSP c then
      (if gs then collapseGS true cs else ' ' :: collapseGS true cs)
    else c :: collapseGS false cs

/-- rspamd_dkim_canonize_header_relaxed, up to the buffer bytes it produces:
    lowercased name, ':', the whitespace-collapsed value, one trailing
    whitespace byte removed if present, then CRLF.  (When is_sign is set the
    buffer goes through sigUpdateOut instead of straight into the hash;
    that choice is made by the caller below.) -/
def relaxedHeaderBytes (name value : List Char) : List Char :=
  let buf := name.map lowerCh ++ ':' :: collapseGS false value
  (if isWSP (buf.getLastD ' ') then buf.dropLast else buf) ++ CRLF

/-!
Simple header canonicalization (rspamd_dkim_canonize_header_simple): a scan
of the raw header block; every header whose name matches feeds its raw
bytes (through the elision scanner when is_sign).
-/

/-- States: 0 = comparing a header name, 1 = skipping a header, 2 =
    collecting a matched header.  `cur` holds the bytes from the saved
    pointer c up to the current position.  The p[1] lookahead at the end of
    the buffer reads the NUL, which is not whitespace. -/
def simpleAux (name : List Char) (isSig : Bool) :
    List Char → Nat → List Char → List Char × Bool
  | [], _, _ => ([], false)
  | ch :: rest, 0, cur =>
    if ch = ':' then
      if cur.length = name.length ∧ lowerStr cur = lowerStr name then
        simpleAux name isSig rest 2 (cur ++ [ ch ])
      else
        simpleAux name isSig rest 1 (cur ++ [ ch ])
    else
      simpleAux name isSig rest 0 (cur ++ [ ch ])
  | ch :: rest, 1, cur =>
    if ch = '\n' ∧ isWSP (rest.headD (Char.ofNat 0)) = false then
      simpleAux name isSig rest 0 []
    else
      simpleAux name isSig rest 1 cur
  | ch :: rest, _, cur =>
    if ch = '\n' ∧ isWSP (rest.headD (Char.ofNat 0)) = false then
      let slice := cur ++ [ ch ]
      let fed := if isSig then sigUpdateOut slice else slice
      let res := simpleAux name isSig rest 0 []
      (fed ++ res.1, true)
    else
      simpleAux name isSig rest 2 (cur ++ [ ch ])

/-!
Body canonicalization (rspamd_dkim_canonize_body and
rspamd_dkim_relaxed_body_step).
-/

/-- One pass of rspamd_dkim_relaxed_body_step over a chunk (the model
    processes the whole body as one chunk; the C code cuts at BUFSIZ).
    CR/LF pop a pending space, other whitespace collapses to one space. -/
def relaxedBodyAux : List Char → Bool → List Char → List Char
  | [], _, acc => acc.reverse
  | c :: rest, gotSp, acc =>
    if c = '\r' ∨ c = '\n' then
      relaxedBodyAux rest false (c :: (if gotSp then acc.tail else acc))
    else if isWSP c then
      if gotSp then relaxedBodyAux rest gotSp acc
      else relaxedBodyAux rest true (' ' :: acc)
    else
      relaxedBodyAux rest false (c :: acc)

def relaxedBodyOnce (l : List Char) : List Char := relaxedBodyAux l false []

/-- The trailing-line stripping loop of rspamd_dkim_canonize_body: while
    end > start + 2 and the bytes at end, end-1, end-2 are LF CR LF, move
    end back by two. -/
def stripIdx (body : List Char) : Nat → Nat
  | e + 3 =>
    if body.getD (e + 3) ' ' = '\n' ∧ body.getD (e + 2) ' ' = '\r' ∧
        body.getD (e + 1) ' ' = '\n' then
      stripIdx body (e + 1)
    else e + 3
  | e => e

/-- rspamd_dkim_canonize_body.  `startB = none` is the NULL start (no body
    found): the CRLF pair is fed but the function returns FALSE.  Otherwise
    `body` is the byte span [start, body_end); the returned flag is TRUE.
    The model requires a non-empty span (the C code would read before the
    buffer on an empty one). -/
def canonizeBodyFeed (ct : DkimCanonType) (startB : Option (List Char)) :
    List Char × Bool :=
  match startB with
  | none => (CRLF, false)
  | some body =>
    let e := stripIdx body (body.length - 1)
    if e = 0 ∨ e = 2 then (CRLF, true)
    else
      let kept := body.take (e + 1)
      let fed := if ct = .simple then kept else relaxedBodyOnce kept
      (fed ++
        (if body.getD e ' ' = '\n' ∧ body.getD (e - 1) ' ' = '\r' then [] else CRLF),
        true)

/-!
The verifier (rspamd_dkim_check): header/body boundary search, body feed,
header feeds and the verdict.
-/

/-- The boundary scan of rspamd_dkim_check, with its three flags; returns
    the index one past the recognized terminator.  (The C loop also
    dereferences the byte one past the message; a terminator can therefore
    never be recognized at that position in this model, matching the
    "no terminator found" outcome.) -/
def findHeadersEndAux :
    List Char → Option Char → Bool → Bool → Bool → Nat → Option Nat
  | [], _, _, _, _, _ => none
  | ch :: rest, prev, gotCr, gotCrlf, gotLf, pos =>
    if ch = '\n' then
      if gotCr ∧ prev = some '\r' then
        if gotCrlf then some (pos + 1)
        else findHeadersEndAux rest (some ch) false true gotLf (pos + 1)
      else if gotCr ∧ prev ≠ some '\r' then
        if prev = some '\n' then some (pos + 1)
        else findHeadersEndAux rest (some ch) false gotCrlf true (pos + 1)
      else if gotLf ∧ prev = some '\n' then some (pos + 1)
      else findHeadersEndAux rest (some ch) gotCr gotCrlf true (pos + 1)
    else if ch = '\r' then
      if gotCr ∧ prev = some '\r' then some (pos + 1)
      else if gotLf ∧ prev = some '\n' then some (pos + 1)
      else findHeadersEndAux rest (some ch) true gotCrlf gotLf (pos + 1)
    else
      findHeadersEndAux rest (some ch) false false gotLf (pos + 1)

def findHeadersEnd (msg : List Char) : Option Nat :=
  findHeadersEndAux msg none false false false 0

/-- The worker task as the verifier sees it: the raw message bytes, the raw
    header block (task->raw_headers_str) and the header table
    (task->raw_headers), an ordered multimap of name/value pairs produced
    by the external RFC 5322 splitter and keyed by lowercased name. -/
structure DkimTask where
  msg : List Char
  rawHeadersStr : List Char
  rawHeaders : List (List Char × List Char)

/-- g_hash_table_lookup on task->raw_headers: the chain of stored values
    for one header name, in stored (message) order. -/
def lookupChain (t : DkimTask) (name : List Char) : List (List Char) :=
  (t.rawHeaders.filter (fun kv => lowerStr kv.1 == lowerStr name)).map (fun kv => kv.2)

/-- rspamd_dkim_canonize_header: simple mode scans the raw header block;
    relaxed mode walks the whole lookup chain (only its first element when
    is_sig).  Returns the bytes fed into headers_hash, or none when the
    header was not found. -/
def canonizeHeaderFeed (ctx : DkimContext) (task : DkimTask) (name : List Char)
    (isSig : Bool) : Option (List Char) :=
  if ctx.headerCanonType = .simple then
    let res := simpleAux name isSig task.rawHeadersStr 0 []
    if res.2 then some res.1 else none
  else
    match lookupChain task name with
    | [] => none
    | v :: vs =>
      if isSig then
        some (sigUpdateOut (relaxedHeaderBytes name v))
      else
        some ((v :: vs).foldl (fun acc w => acc ++ relaxedHeaderBytes name w) [])

/-- Body portion of rspamd_dkim_check: boundary search, the l= cap, and the
    body canonicalization feed with its success flag. -/
def dkimBodyFeed (ctx : DkimContext) (task : DkimTask) : List Char × Bool :=
  match findHeadersEnd task.msg with
  | some h =>
    let rest := task.msg.drop h
    let body := if ctx.len = 0 ∨ rest.length < ctx.len then rest else rest.take ctx.len
    canonizeBodyFeed ctx.bodyCanonType (some body)
  | none => canonizeBodyFeed ctx.bodyCanonType none

/-- Header portion of rspamd_dkim_check: each name of ctx->hlist must be
    found (none otherwise); finally the DKIM-Signature header itself is
    canonicalized through the elision scanner, its found-flag ignored. -/
def dkimHeadersFeed (ctx : DkimContext) (task : DkimTask) : Option (List Char) :=
  ((ctx.hlist.getD []).foldl
    (fun acc name =>
      match acc with
      | none => none
      | some fs =>
        match canonizeHeaderFeed ctx task name false with
        | none => none
        | some f => some (fs ++ f))
    (some [])).map
    (fun fs => fs ++ (canonizeHeaderFeed ctx task (("DKIM-Signature").data) true).getD [])

inductive DkimResult where
  | CONTINUE
  | REJECT
  | RECORD_ERROR
deriving DecidableEq, Repr

/-- rspamd_dkim_check.  `H` is the digest of the algorithm chosen at
    context creation (an external library call), `rsa` the RSA_verify call
    on the headers digest and the decoded b= bytes.  The source order:
    body canonization failure and a missing listed header give
    DKIM_RECORD_ERROR; only then is the body digest compared with ctx->bh
    (DKIM_REJECT on mismatch) and RSA verification run. -/
def dkimCheck (H : List Char → List Char) (rsa : List Char → List Char → Bool)
    (ctx : DkimContext) (task : DkimTask) : DkimResult :=
  let bodyRes := dkimBodyFeed ctx task
  if bodyRes.2 = false then .RECORD_ERROR
  else
    match dkimHeadersFeed ctx task with
    | none => .RECORD_ERROR
    | some hf =>
      if H bodyRes.1 ≠ ctx.bh.getD [] then .REJECT
      else if rsa (H hf) (ctx.b.getD []) then .CONTINUE
      else .REJECT

/-!
Specification-side reference definitions, used only to compare the code's
behavior against the spec text where a claim calls for it.
-/

/-- Helper for the spec-side model below: take the last occurrence of a
    header name from the available occurrences and return its value and the
    remaining occurrences. -/
def splitLastOcc : List (List Char × List Char) → List Char →
    Option (List Char × List (List Char × List Char))
  | [], _ => none
  | kv :: t, n =>
    match splitLastOcc t n with
    | some p => some (p.1, kv :: p.2)
    | none => if lowerStr kv.1 == lowerStr n then some (kv.2, t) else none

/-- Modelled from the spec, section 4.4, for comparison in C5: for each name
    in the signed-header list fetch the next unused occurrence of that
    header from the bottom of the message upward, canonicalize it (relaxed
    shown here) and fail when none is left. -/
def specBottomUpFeed : List (List Char) → List (List Char × List Char) → Option (List Char)
  | [], _ => some []
  | n :: ns, avail =>
    match splitLastOcc avail n with
    | none => none
    | some p => (specBottomUpFeed ns p.2).map (fun f => relaxedHeaderBytes n p.1 ++ f)

/-!
Concrete inputs used by the claim theorems.
-/

def sigNoV : List Char := ("a=rsa-sha256; b=QUJD; bh=MTIz; d=example.com; s=dkim; h=from").data
def sigNoA : List Char := ("v=1; b=QUJD; bh=MTIz; d=example.com; s=dkim; h=from").data
def sigNoB : List Char := ("v=1; a=rsa-sha256; bh=MTIz; d=example.com; s=dkim; h=from").data
def sigNoBH : List Char := ("v=1; a=rsa-sha256; b=QUJD; d=example.com; s=dkim; h=from").data
def sigNoD : List Char := ("v=1; a=rsa-sha256; b=QUJD; bh=MTIz; s=dkim; h=from").data
def sigNoS : List Char := ("v=1; a=rsa-sha256; b=QUJD; bh=MTIz; d=example.com; h=from").data
def sigNoH : List Char := ("v=1; a=rsa-sha256; b=QUJD; bh=MTIz; d=example.com; s=dkim").data

def sigEmptyB : List Char :=
  ("v=1; a=rsa-sha256; b=; bh=AAAAAAAAAAAAAAAAAAAAAAAAAAAAAAAAAAAAAAAAAAA=; d=example.com; s=dkim; h=from").data
def sigAbsentB : List Char :=
  ("v=1; a=rsa-sha256; bh=AAAAAAAAAAAAAAAAAAAAAAAAAAAAAAAAAAAAAAAAAAA=; d=example.com; s=dkim; h=from").data

def ctxW8 : DkimContext :=
  { ctxEmpty with b := some [], bh := some [], domain := some [], selector := some [] }

/-- Message with one header and body "body", used by the C1 theorems. -/
def taskA : DkimTask :=
  ⟨("A: b\r\n\r\nbody").data, ("A: b\r\n").data, [(("a").data, ("b").data)]⟩

def ctxC1 : DkimContext :=
  { ctxEmpty with
    bh := some (("XX").data)
    hlist := some [("missing").data]
    headerCanonType := .relaxed }

def ctxW1 : DkimContext :=
  { ctxEmpty with
    bh := some (("no").data)
    hlist := some [("a").data]
    headerCanonType := .relaxed }

def ctxC4 : DkimContext :=
  { ctxEmpty with
    bh := some CRLF
    hlist := some [("from").data]
    headerCanonType := .relaxed }

def taskC4 : DkimTask :=
  ⟨("From: x\r\nabc").data, ("From: x\r\n").data, [(("from").data, ("x").data)]⟩

def ctxC5 : DkimContext :=
  { ctxEmpty with
    headerCanonType := .relaxed
    hlist := some [("x").data, ("x").data] }

def taskC5 : DkimTask :=
  ⟨[], [], [(("x").data, ("v1").data), (("x").data, ("v2").data)]⟩


/-- Right-fold formulation of WSP-run collapsing, used by the amended C6
    claim: a WSP byte becomes a space unless the collapsed rest already
    starts with one. -/
def specCollapse : List Char → List Char
  | [] => []
  | c :: cs =>
    let r := specCollapse cs
    if isWSP c then (if r.head? = some ' ' then r else ' ' :: r)
    else c :: r

/-- Drop one leading space. -/
def headDropSpace (l : List Char) : List Char :=
  if l.head? = some ' ' then l.tail else l

/-- Remove all trailing WSP bytes. -/
def dropTrailWSP : List Char → List Char
  | [] => []
  | a :: t =>
    match dropTrailWSP t with
    | [] => if isWSP a then [] else [ a ]
    | r => a :: r

/-- No two adjacent WSP bytes. -/
def noAdjWSP : List Char → Bool
  | [] => true
  | [_] => true
  | a :: b :: t => (!(isWSP a && isWSP b)) && noAdjWSP (b :: t)

/-- The amended C6 claim's reference formulation of relaxed header
    canonicalization: lowercased name, ':', the value with every WSP run
    collapsed to a single space (a leading run becoming a single space
    after the colon), trailing WSP removed, CRLF terminator. -/
def relaxedHeaderAmendedSpec (name value : List Char) : List Char :=
  name.map lowerCh ++ ':' :: dropTrailWSP (specCollapse value) ++ CRLF

def preW7 : List Char := ("dkim-signature:v=1; a=rsa-sha256; ").data

/-!
Claim theorems.
-/

/-- C8: an input that parses tag-by-tag but lacks one of the required tags
    v, a, b, bh, d, s, h fails context creation with the corresponding
    error: EMPTY_V, EMPTY_B, EMPTY_BH, EMPTY_D, EMPTY_S, EMPTY_H for the
    named tags, and for a missing a tag the code the source assigns to it
    (DKIM_SIGERROR_EMPTY_S, raised when sig_alg is still unknown).  The
    first seven conjuncts state this over the completeness stage for every
    parsed context; the last seven evaluate the full context creation on a
    representative input per missing tag. -/
theorem c8_missing_tag_errors :
    (∀ (c : DkimContext) (now : Nat), c.b = none →
      dkimCtxComplete c now = .error .EMPTY_B) ∧
    (∀ (c : DkimContext) (now : Nat), c.b ≠ none → c.bh = none →
      dkimCtxComplete c now = .error .EMPTY_BH) ∧
    (∀ (c : DkimContext) (now : Nat), c.b ≠ none → c.bh ≠ none → c.domain = none →
      dkimCtxComplete c now = .error .EMPTY_D) ∧
    (∀ (c : DkimContext) (now : Nat), c.b ≠ none → c.bh ≠ none → c.domain ≠ none →
      c.selector = none → dkimCtxComplete c now = .error .EMPTY_S) ∧
    (∀ (c : DkimContext) (now : Nat), c.b ≠ none → c.bh ≠ none → c.domain ≠ none →
      c.selector ≠ none → c.ver = 0 → dkimCtxComplete c now = .error .EMPTY_V) ∧
    (∀ (c : DkimContext) (now : Nat), c.b ≠ none → c.bh ≠ none → c.domain ≠ none →
      c.selector ≠ none → c.ver ≠ 0 → c.hlist = none →
      dkimCtxComplete c now = .error .EMPTY_H) ∧
    (∀ (c : DkimContext) (now : Nat), c.b ≠ none → c.bh ≠ none → c.domain ≠ none →
      c.selector ≠ none → c.ver ≠ 0 → c.hlist ≠ none → c.sigAlg = .unknown →
      dkimCtxComplete c now = .error .EMPTY_S) ∧
    resErr (createDkimContext sigNoV 0) = some .EMPTY_V ∧
    resErr (createDkimContext sigNoA 0) = some .EMPTY_S ∧
    resErr (createDkimContext sigNoB 0) = some .EMPTY_B ∧
    resErr (createDkimContext sigNoBH 0) = some .EMPTY_BH ∧
    resErr (createDkimContext sigNoD 0) = some .EMPTY_D ∧
    resErr (createDkimContext sigNoS 0) = some .EMPTY_S ∧
    resErr (createDkimContext sigNoH 0) = some .EMPTY_H := by
  refine ⟨?_, ?_, ?_, ?_, ?_, ?_, ?_, rfl, rfl, rfl, rfl, rfl, rfl, rfl⟩
  · intro c now h1
    simp [dkimCtxComplete, h1]
  · intro c now h1 h2
    simp [dkimCtxComplete, h1, h2]
  · intro c now h1 h2 h3
    simp [dkimCtxComplete, h1, h2, h3]
  · intro c now h1 h2 h3 h4
    simp [dkimCtxComplete, h1, h2, h3, h4]
  · intro c now h1 h2 h3 h4 h5
    simp [dkimCtxComplete, h1, h2, h3, h4, h5]
  · intro c now h1 h2 h3 h4 h5 h6
    simp [dkimCtxComplete, h1, h2, h3, h4, h5, h6]
  · intro c now h1 h2 h3 h4 h5 h6 h7
    simp [dkimCtxComplete, h1, h2, h3, h4, h5, h6, h7]

/-- C8 witness: the completeness-stage conjuncts applied at concrete
    contexts. -/
theorem c8_missing_tag_errors_witness :
    dkimCtxComplete ctxW8 3 = .error .EMPTY_V ∧
    dkimCtxComplete ctxEmpty 3 = .error .EMPTY_B :=
  ⟨c8_missing_tag_errors.2.2.2.2.1 ctxW8 3 (by decide) (by decide) (by decide)
      (by decide) rfl,
   c8_missing_tag_errors.1 ctxEmpty 3 rfl⟩

/-- C10: a b tag with an empty value never produces EMPTY_B.  In whatever
    parser state the b tag is encountered, an empty value stores a non-NULL
    zero-length decoded signature (blen = 0), and the completeness check
    never raises EMPTY_B on a context whose b field is set, so EMPTY_B can
    only arise when no b tag was parsed at all.  The last two conjuncts
    ground this end to end: a full header with b=; among otherwise valid
    tags creates successfully with a zero-length b, and the same header
    without the b tag fails with EMPTY_B. -/
theorem c10_empty_b_value_ok :
    (∀ ctx : DkimContext, parseSignature ctx [] = .ok { ctx with b := some [] }) ∧
    (∀ (c : DkimContext) (now : Nat), c.b ≠ none →
      dkimCtxComplete c now ≠ .error .EMPTY_B) ∧
    (createDkimContext sigEmptyB 0).toOption.map (fun c => c.b) = some (some []) ∧
    resErr (createDkimContext sigAbsentB 0) = some .EMPTY_B := by
  refine ⟨fun ctx => rfl, ?_, rfl, rfl⟩
  intro c now h hc
  unfold dkimCtxComplete at hc
  rw [if_neg h] at hc
  repeat' split at hc
  all_goals simp_all

/-- C10 witness: the general conjuncts applied at concrete inputs — the
    empty b value parsed onto the fresh context, and the completeness
    check on a context with a zero-length b (which fails with EMPTY_V
    there, not EMPTY_B). -/
theorem c10_empty_b_value_ok_witness :
    parseSignature ctxEmpty [] = .ok { ctxEmpty with b := some [] } ∧
    ctxW8.b ≠ none ∧
    dkimCtxComplete ctxW8 3 ≠ .error .EMPTY_B :=
  ⟨c10_empty_b_value_ok.1 ctxEmpty, by decide,
   c10_empty_b_value_ok.2.1 ctxW8 3 (by decide)⟩

/-- C2: on the record "v=DKIM1; p=" the key parser fails with KEYFAIL, not
    KEYREVOKED (after the scan loop p - c is 1, never 0, so the revoked
    branch is unreachable), and the DNS callback delivers that KEYFAIL. -/
theorem c2_empty_p_keyfail :
    parseKey (("v=DKIM1; p=").data) = .error .KEYFAIL ∧
    dnsCb ⟨.noError, [("v=DKIM1; p=").data]⟩ = (none, some .KEYFAIL) :=
  ⟨rfl, rfl⟩

/-- C3: the three-byte body "abc" is fed to the body hash as the empty-body
    CRLF pair, not as "abc\r\n" (after end-- the index equals start + 2, so
    the empty-body branch fires). -/
theorem c3_short_body_fed_as_empty :
    canonizeBodyFeed .simple (some (("abc").data)) = (CRLF, true) ∧
    CRLF ≠ ("abc\r\n").data :=
  ⟨rfl, by decide⟩

/-- C4: on a message without any header/body terminator, check returns
    RECORD_ERROR from the body-canonicalization step (which feeds CRLF but
    returns FALSE), even though the empty-body digest would have matched
    ctx.bh here. -/
theorem c4_no_terminator_record_error :
    findHeadersEnd taskC4.msg = none ∧
    id CRLF = ctxC4.bh.getD [] ∧
    dkimCheck id (fun _ _ => true) ctxC4 taskC4 = .RECORD_ERROR :=
  ⟨rfl, rfl, rfl⟩

/-- C5: with the signed-header list naming "x" twice and two "x" headers in
    the message, the code feeds every stored occurrence for each list entry
    (v1, v2, v1, v2), not one previously-unused occurrence from the bottom
    upward (v2 then v1) as the claim states. -/
theorem c5_header_consumption :
    dkimHeadersFeed ctxC5 taskC5 = some (("x:v1\r\nx:v2\r\nx:v1\r\nx:v2\r\n").data) ∧
    specBottomUpFeed (ctxC5.hlist.getD []) taskC5.rawHeaders =
      some (("x:v2\r\nx:v1\r\n").data) ∧
    dkimHeadersFeed ctxC5 taskC5 ≠
      specBottomUpFeed (ctxC5.hlist.getD []) taskC5.rawHeaders :=
  ⟨rfl, rfl, by decide⟩

/-- C9 counterexample: a SERVFAIL reply yields NOKEY, not KEYFAIL. -/
theorem c9_servfail_counterexample :
    dnsCb ⟨.servFail, []⟩ = (none, some .NOKEY) ∧
    DkimError.NOKEY ≠ DkimError.KEYFAIL :=
  ⟨rfl, by decide⟩

/-- C9 (amended): every DNS reply with a non-success response code makes
    the adapter deliver NOKEY through its single callback invocation, for
    NXDOMAIN and for every other failure code alike. -/
theorem c9_dns_error_amended (r : DnsReply) (h : r.code ≠ .noError) :
    dnsCb r = (none, some .NOKEY) := by
  simp [dnsCb, h]

/-- C9 witness: the amended theorem at a SERVFAIL reply. -/
theorem c9_dns_error_witness :
    DnsRc.servFail ≠ DnsRc.noError ∧
    dnsCb ⟨.servFail, []⟩ = (none, some .NOKEY) :=
  ⟨by decide, c9_dns_error_amended ⟨.servFail, []⟩ (by decide)⟩

/-- C1 counterexample: a context whose bh differs from the body digest but
    whose signed-header list names a header missing from the message makes
    check return RECORD_ERROR, not the claimed REJECT. -/
theorem c1_order_counterexample :
    id (dkimBodyFeed ctxC1 taskA).1 ≠ ctxC1.bh.getD [] ∧
    dkimCheck id (fun _ _ => true) ctxC1 taskA = .RECORD_ERROR :=
  ⟨by decide, rfl⟩

/-- C1 (amended): check canonicalizes the signed headers before comparing
    the body digest; only when body canonicalization succeeded and every
    referenced header was found does a body-digest mismatch with ctx.bh
    produce REJECT. -/
theorem c1_bh_after_headers (H : List Char → List Char)
    (rsa : List Char → List Char → Bool) (ctx : DkimContext) (task : DkimTask)
    (hf : List Char)
    (hb : (dkimBodyFeed ctx task).2 = true)
    (hh : dkimHeadersFeed ctx task = some hf)
    (hmis : H (dkimBodyFeed ctx task).1 ≠ ctx.bh.getD []) :
    dkimCheck H rsa ctx task = .REJECT := by
  simp [dkimCheck, hb, hh, hmis]

/-- C1 witness: the amended theorem at a concrete context and message. -/
theorem c1_bh_after_headers_witness :
    (dkimBodyFeed ctxW1 taskA).2 = true ∧
    dkimHeadersFeed ctxW1 taskA = some (("a:b\r\n").data) ∧
    id (dkimBodyFeed ctxW1 taskA).1 ≠ ctxW1.bh.getD [] ∧
    dkimCheck id (fun _ _ => true) ctxW1 taskA = .REJECT :=
  ⟨rfl, rfl, by decide,
   c1_bh_after_headers id (fun _ _ => true) ctxW1 taskA (("a:b\r\n").data)
     rfl rfl (by decide)⟩

/-!
Lemmas about the elision scanner, leading to the C7 theorem: scanning
splits at the detected "b=", the skipped value is absorbed into the pending
span without output, and once skip mode ends the pending span accumulated
during the skip is discarded, so the final output does not depend on it.
-/

theorem sigScan_append_head (pre : List Char) (st : SigSt) (u : List Char) (c : Char)
    (h : u.head? = some c) :
    sigScan st (pre ++ u) = sigScan (sigScanP st pre c) u := by
  induction pre generalizing st with
  | nil => rfl
  | cons a pre ih =>
    have hu : u ≠ [] := by intro hc; rw [hc] at h; simp at h
    have h1 : (pre ++ u).head? = some (pre.headD c) := by
      cases pre with
      | nil => simpa using h
      | cons x xs => rfl
    have h2 : (pre ++ u).isEmpty = false := by
      cases pre with
      | nil =>
        cases u with
        | nil => exact absurd rfl hu
        | cons y ys => rfl
      | cons x xs => rfl
    show sigScan (sigStep st a (pre ++ u).head? (pre ++ u).isEmpty) (pre ++ u) =
      sigScan (sigScanP (sigStep st a (some (pre.headD c)) false) pre c) u
    rw [h1, h2]
    exact ih _

theorem sigScan_skip_absorb (s : List Char) (r P o : List Char)
    (hs : ∀ a ∈ s, a ≠ ';') (hr : r ≠ []) :
    sigScan ⟨false, true, P, o⟩ (s ++ r) = sigScan ⟨false, true, P ++ s, o⟩ r := by
  induction s generalizing P with
  | nil => simp
  | cons a s ih =>
    have ha : a ≠ ';' := hs a (by simp)
    have hs2 : ∀ x ∈ s, x ≠ ';' := fun x hx => hs x (by simp [hx])
    have hne : (s ++ r).isEmpty = false := by
      cases s with
      | nil =>
        cases r with
        | nil => exact absurd rfl hr
        | cons y ys => rfl
      | cons x xs => rfl
    have hstep : sigStep ⟨false, true, P, o⟩ a (s ++ r).head? false =
        ⟨false, true, P ++ [ a ], o⟩ := by
      simp [sigStep, ha]
    show sigScan (sigStep ⟨false, true, P, o⟩ a (s ++ r).head? (s ++ r).isEmpty) (s ++ r) = _
    rw [hne, hstep, ih _ hs2]
    simp

theorem sigScan_skip_lastLeg (t : List Char) :
    t ≠ [] → ∀ (P1 P2 o : List Char),
    sigFinishOut (sigScan ⟨false, true, P1, o⟩ t) =
    sigFinishOut (sigScan ⟨false, true, P2, o⟩ t) := by
  induction t with
  | nil => intro h; exact absurd rfl h
  | cons a t ih =>
    intro _ P1 P2 o
    cases t with
    | nil =>
      have h1 : ∀ P : List Char, sigStep ⟨false, true, P, o⟩ a none true =
          ⟨false, false, [ a ], o⟩ := by
        intro P; simp [sigStep]
      show sigFinishOut (sigScan (sigStep ⟨false, true, P1, o⟩ a none true) []) =
        sigFinishOut (sigScan (sigStep ⟨false, true, P2, o⟩ a none true) [])
      rw [h1, h1]
    | cons b t2 =>
      have u1 : ∀ P : List Char, sigScan ⟨false, true, P, o⟩ (a :: b :: t2) =
          sigScan (sigStep ⟨false, true, P, o⟩ a (b :: t2).head? (b :: t2).isEmpty)
            (b :: t2) := fun P => rfl
      by_cases ha : a = ';'
      · have h1 : ∀ P : List Char,
            sigStep ⟨false, true, P, o⟩ a (b :: t2).head? (b :: t2).isEmpty =
            ⟨false, false, [ a ], o⟩ := by
          intro P; simp [sigStep, ha]
        rw [u1 P1, u1 P2, h1 P1, h1 P2]
      · have h1 : ∀ P : List Char,
            sigStep ⟨false, true, P, o⟩ a (b :: t2).head? (b :: t2).isEmpty =
            ⟨false, true, P ++ [ a ], o⟩ := by
          intro P; simp [sigStep, ha]
        rw [u1 P1, u1 P2, h1 P1, h1 P2]
        exact ih (by simp) _ _ _

theorem sigScanTailB (st0 : SigSt) (hTag : st0.tag = true) (s t : List Char)
    (hs : ∀ a ∈ s, a ≠ ';') (ht : t ≠ []) :
    sigScan st0 ('b' :: '=' :: (s ++ t)) =
    sigScan ⟨false, true, (st0.pending ++ [ 'b', '=' ]) ++ s,
      st0.outb ++ st0.pending ++ [ 'b', '=' ]⟩ t := by
  have hne : (s ++ t).isEmpty = false := by
    cases s with
    | nil =>
      cases t with
      | nil => exact absurd rfl ht
      | cons y ys => rfl
    | cons x xs => rfl
  have hstep1 : sigStep st0 'b' (some '=') false =
      ⟨st0.tag, true, st0.pending ++ [ 'b' ], st0.outb ++ st0.pending ++ [ 'b', '=' ]⟩ := by
    simp [sigStep, hTag]
  have hstep2 : sigStep ⟨st0.tag, true, st0.pending ++ [ 'b' ],
      st0.outb ++ st0.pending ++ [ 'b', '=' ]⟩ '=' (s ++ t).head? false =
      ⟨false, true, (st0.pending ++ [ 'b' ]) ++ [ '=' ],
        st0.outb ++ st0.pending ++ [ 'b', '=' ]⟩ := by
    simp [sigStep, hTag]
  show sigScan (sigStep st0 'b' (some '=') false) ('=' :: (s ++ t)) = _
  rw [hstep1]
  show sigScan (sigStep ⟨st0.tag, true, st0.pending ++ [ 'b' ],
      st0.outb ++ st0.pending ++ [ 'b', '=' ]⟩ '=' (s ++ t).head? (s ++ t).isEmpty) (s ++ t) = _
  rw [hne, hstep2, sigScan_skip_absorb s t _ _ hs ht]
  simp

/-- C7: signature-elision law.  Feeding the elision scanner a header of
    the form pre ++ "b=" ++ s ++ t, where the scan of the prefix arrives at
    the b in tag position, s is the b value (admitting every byte except an
    unquoted ';', in particular every base64 string) and t is the non-empty
    remainder (";..." when more tags follow, or the trailing CRLF both
    call sites guarantee), produces hash input independent of s. -/
theorem c7_signature_elision (pre s1 s2 t : List Char)
    (h1 : ∀ a ∈ s1, a ≠ ';') (h2 : ∀ a ∈ s2, a ≠ ';') (ht : t ≠ [])
    (hTag : (sigScanP sigInit pre 'b').tag = true) :
    sigUpdateOut (pre ++ 'b' :: '=' :: (s1 ++ t)) =
    sigUpdateOut (pre ++ 'b' :: '=' :: (s2 ++ t)) := by
  unfold sigUpdateOut
  rw [sigScan_append_head pre sigInit ('b' :: '=' :: (s1 ++ t)) 'b' rfl,
      sigScan_append_head pre sigInit ('b' :: '=' :: (s2 ++ t)) 'b' rfl,
      sigScanTailB _ hTag s1 t h1 ht,
      sigScanTailB _ hTag s2 t h2 ht]
  exact sigScan_skip_lastLeg t ht _ _ _


set_option maxRecDepth 4000 in
/-- C7 witness: two concrete base64 b= values inside a concrete signature
    header produce the same hash input. -/
theorem c7_signature_elision_witness :
    (∀ a ∈ ("QUJD").data, a ≠ ';') ∧ (∀ a ∈ ("eHl6").data, a ≠ ';') ∧
    (("\r\n").data ≠ ([] : List Char)) ∧
    (sigScanP sigInit preW7 'b').tag = true ∧
    sigUpdateOut (preW7 ++ 'b' :: '=' :: (("QUJD").data ++ ("\r\n").data)) =
    sigUpdateOut (preW7 ++ 'b' :: '=' :: (("eHl6").data ++ ("\r\n").data)) :=
  ⟨by decide, by decide, by decide, by decide,
   c7_signature_elision preW7 (("QUJD").data) (("eHl6").data) (("\r\n").data)
     (by decide) (by decide) (by decide) (by decide)⟩

/-!
Lemmas for C6: the got_sp automaton of
rspamd_dkim_canonize_header_relaxed equals the right-fold collapse, its
output never holds two adjacent WSP bytes, and on such output removing one
trailing whitespace byte equals removing all trailing whitespace.
-/

theorem collapse_eq_spec (v : List Char) :
    collapseGS false v = specCollapse v ∧
    collapseGS true v = headDropSpace (specCollapse v) := by
  induction v with
  | nil => exact ⟨rfl, rfl⟩
  | cons c cs ih =>
    by_cases hw : isWSP c = true
    · have hf : collapseGS false (c :: cs) = ' ' :: collapseGS true cs := by
        simp [collapseGS, hw]
      have ht : collapseGS true (c :: cs) = collapseGS true cs := by
        simp [collapseGS, hw]
      have hs : specCollapse (c :: cs) = ' ' :: headDropSpace (specCollapse cs) := by
        show (if isWSP c then
            (if (specCollapse cs).head? = some ' ' then specCollapse cs
              else ' ' :: specCollapse cs)
          else c :: specCollapse cs) = _
        rw [if_pos hw]
        by_cases hh : (specCollapse cs).head? = some ' '
        · rw [if_pos hh]
          cases hr : specCollapse cs with
          | nil => rw [hr] at hh; simp at hh
          | cons x tl =>
            rw [hr] at hh
            simp only [List.head?_cons, Option.some.injEq] at hh
            subst hh
            simp [headDropSpace]
        · rw [if_neg hh]
          simp [headDropSpace, hh]
      rw [hf, ht, hs]
      refine ⟨by rw [ih.2], ?_⟩
      rw [ih.2]
      simp [headDropSpace]
    · have hc : ¬ c = ' ' := by
        intro h; subst h; exact hw (by decide)
      have hf : collapseGS false (c :: cs) = c :: collapseGS false cs := by
        simp [collapseGS, hw]
      have ht : collapseGS true (c :: cs) = c :: collapseGS false cs := by
        simp [collapseGS, hw]
      have hs : specCollapse (c :: cs) = c :: specCollapse cs := by
        show (if isWSP c then
            (if (specCollapse cs).head? = some ' ' then specCollapse cs
              else ' ' :: specCollapse cs)
          else c :: specCollapse cs) = _
        rw [if_neg hw]
      rw [hf, ht, hs]
      refine ⟨by rw [ih.1], ?_⟩
      rw [ih.1]
      simp [headDropSpace, hc]

theorem collapse_true_head (v : List Char) :
    ∀ a l, collapseGS true v = a :: l → isWSP a = false := by
  induction v with
  | nil => intro a l h; simp [collapseGS] at h
  | cons c cs ih =>
    intro a l h
    by_cases hw : isWSP c = true
    · rw [show collapseGS true (c :: cs) = collapseGS true cs by simp [collapseGS, hw]] at h
      exact ih a l h
    · rw [show collapseGS true (c :: cs) = c :: collapseGS false cs by
        simp [collapseGS, hw]] at h
      rw [List.cons.injEq] at h
      rw [← h.1]
      simpa using hw

theorem collapse_noAdj (v : List Char) : ∀ gs, noAdjWSP (collapseGS gs v) = true := by
  induction v with
  | nil => intro gs; rfl
  | cons c cs ih =>
    intro gs
    by_cases hw : isWSP c = true
    · cases gs with
      | true =>
        rw [show collapseGS true (c :: cs) = collapseGS true cs by simp [collapseGS, hw]]
        exact ih true
      | false =>
        rw [show collapseGS false (c :: cs) = ' ' :: collapseGS true cs by
          simp [collapseGS, hw]]
        cases hX : collapseGS true cs with
        | nil => rfl
        | cons x tl =>
          have hx : isWSP x = false := collapse_true_head cs x tl hX
          have hn : noAdjWSP (x :: tl) = true := by rw [← hX]; exact ih true
          simp [noAdjWSP, hx, hn]
    · have he : collapseGS gs (c :: cs) = c :: collapseGS false cs := by
        cases gs <;> simp [collapseGS, hw]
      rw [he]
      cases hX : collapseGS false cs with
      | nil => rfl
      | cons x tl =>
        have hn : noAdjWSP (x :: tl) = true := by rw [← hX]; exact ih false
        simp [noAdjWSP, hw, hn]

theorem rstrip_eq_dropTrail (B : List Char) (hAdj : noAdjWSP B = true) :
    (if isWSP (B.getLastD ' ') then B.dropLast else B) = dropTrailWSP B := by
  induction B with
  | nil => decide
  | cons a B2 ih =>
    cases B2 with
    | nil =>
      by_cases hw : isWSP a = true
      · simp [List.getLastD_cons, List.getLastD_nil, hw, dropTrailWSP]
      · simp [List.getLastD_cons, List.getLastD_nil, hw, dropTrailWSP]
    | cons b t =>
      have hAdj1 : (isWSP a && isWSP b) = false ∧ noAdjWSP (b :: t) = true := by
        have h := hAdj
        rw [show noAdjWSP (a :: b :: t) =
            ((!(isWSP a && isWSP b)) && noAdjWSP (b :: t)) from rfl,
          Bool.and_eq_true, Bool.not_eq_true'] at h
        exact h
      have ih2 := ih hAdj1.2
      have hLast : (a :: b :: t).getLastD ' ' = (b :: t).getLastD ' ' := by
        simp [List.getLastD_cons]
      have hDropLast : (a :: b :: t).dropLast = a :: (b :: t).dropLast := rfl
      have hUnf : dropTrailWSP (a :: b :: t) =
          (match dropTrailWSP (b :: t) with
            | [] => if isWSP a then [] else [ a ]
            | r => a :: r) := rfl
      by_cases hw : isWSP ((b :: t).getLastD ' ') = true
      · rw [if_pos hw] at ih2
        rw [hLast, if_pos hw, hDropLast, hUnf]
        cases hd : dropTrailWSP (b :: t) with
        | nil =>
          rw [hd] at ih2
          cases t with
          | nil =>
            have hwb : isWSP b = true := by
              simpa [List.getLastD_cons, List.getLastD_nil] using hw
            have hwa : isWSP a = false := by
              have h2 := hAdj1.1
              rw [hwb] at h2
              simpa using h2
            simp [ih2, hwa]
          | cons c t3 => simp at ih2
        | cons r0 rr =>
          rw [hd] at ih2
          simp [ih2]
      · rw [if_neg hw] at ih2
        rw [hLast, if_neg hw, hUnf]
        cases hd : dropTrailWSP (b :: t) with
        | nil => rw [hd] at ih2; simp at ih2
        | cons r0 rr =>
          rw [hd] at ih2
          simp [ih2]

theorem getLastD_append_ne (l1 l2 : List Char) (d : Char) (h : l2 ≠ []) :
    (l1 ++ l2).getLastD d = l2.getLastD d := by
  induction l1 generalizing d with
  | nil => rfl
  | cons a l1 ih =>
    rw [List.cons_append, List.getLastD_cons, ih a]
    cases l2 with
    | nil => exact absurd rfl h
    | cons x xs => rw [List.getLastD_cons, List.getLastD_cons]

/-- C6 (amended): relaxed header canonicalization emits the lowercased
    name, ':', then the value with every WSP run collapsed to one space
    (a leading run after the colon becoming a single space rather than
    nothing), trailing WSP removed and CRLF folding collapsed, terminated
    by CRLF. -/
theorem c6_relaxed_header_amended (name value : List Char) :
    relaxedHeaderBytes name value = relaxedHeaderAmendedSpec name value := by
  simp only [relaxedHeaderBytes, relaxedHeaderAmendedSpec]
  rw [← (collapse_eq_spec value).1]
  cases hB : collapseGS false value with
  | nil =>
    have h : isWSP ((name.map lowerCh ++ [ ':' ]).getLastD ' ') = false := by
      rw [List.getLastD_concat]; decide
    have hEq : name.map lowerCh ++ ':' :: ([] : List Char) = name.map lowerCh ++ [ ':' ] := rfl
    rw [hEq, h]
    simp [dropTrailWSP]
  | cons b0 B2 =>
    have hne : b0 :: B2 ≠ [] := by simp
    have hEq : name.map lowerCh ++ ':' :: (b0 :: B2) =
        (name.map lowerCh ++ [ ':' ]) ++ (b0 :: B2) := by simp
    have hAdj : noAdjWSP (b0 :: B2) = true := by
      rw [← hB]; exact collapse_noAdj value false
    have hr := rstrip_eq_dropTrail (b0 :: B2) hAdj
    rw [hEq, getLastD_append_ne _ _ _ hne, List.dropLast_append_of_ne_nil _ hne]
    by_cases hw : isWSP ((b0 :: B2).getLastD ' ') = true
    · rw [if_pos hw] at hr
      rw [hw, if_pos rfl, hr]
      simp
    · rw [if_neg hw] at hr
      have hw2 : isWSP ((b0 :: B2).getLastD ' ') = false := by
        cases hx : isWSP ((b0 :: B2).getLastD ' ') with
        | false => rfl
        | true => exact absurd hx hw
      rw [hw2]
      simp [← hr]

/-- C6 counterexample: on the value " x" relaxed canonicalization emits
    "a: x" before the CRLF: one space survives between the colon and the
    first non-WSP byte, where the claim requires none. -/
theorem c6_leading_wsp_counterexample :
    relaxedHeaderBytes ("a").data (" x").data = ("a: x\r\n").data ∧
    relaxedHeaderBytes ("a").data (" x").data ≠ ("a:x\r\n").data :=
  ⟨rfl, by decide⟩
